import Mathlib

/-!
Shallow embedding of the order-lifecycle / stock-reservation engine of the
Advanced-E-Commerce-API repository.

The embedded code lives in:
  * `src/unnamed/part_003` (the order service: checkout, processPayment,
    getOrderById, cancelOrder, each in a transactional and a fallback
    sequential variant),
  * `src/src/services/adminService.js` (updateOrderStatus),
  * the Mongoose models `Product.js`, `Order.js`, `Cart.js`, `Payment.js`.

MongoDB collections are modelled as lists of records; `findById` /
`findOne` return the first record with the given key, `save` replaces the
records with the saved document's id.  JavaScript numbers holding stock
counters, prices and timestamps are modelled as `Int` (subtraction may go
negative exactly as in the source, where the code then checks or clamps).
In the transactional variants an error aborts the session, so the state
reverts to the input; in the fallback variants every `save` performed
before the error persists, exactly as in the source.
-/

namespace ECom

/-- `ORDER_STATUS` from `src/src/models/Order.js`. -/
inductive OrderStatus where
  | PENDING_PAYMENT
  | PAID
  | SHIPPED
  | DELIVERED
  | CANCELLED
deriving DecidableEq, Repr

/-- `PAYMENT_STATUS` from `src/src/models/Payment.js`. -/
inductive PaymentStatus where
  | SUCCESS
  | FAILED
deriving DecidableEq, Repr

/-- A product document (`src/src/models/Product.js`): `price`, `stock`,
`reservedStock`; `pid` stands for the Mongo `_id`. -/
structure Product where
  pid : Nat
  price : Int
  stock : Int
  reservedStock : Int
deriving DecidableEq, Repr

/-- An order line (`orderItemSchema` in `src/src/models/Order.js`). -/
structure OrderItem where
  productId : Nat
  quantity : Int
  priceAtPurchase : Int
deriving DecidableEq, Repr

/-- An order document (`src/src/models/Order.js`); `oid` stands for `_id`. -/
structure Order where
  oid : Nat
  userId : Nat
  items : List OrderItem
  totalAmount : Int
  status : OrderStatus
  paymentDeadline : Int
deriving DecidableEq, Repr

/-- A cart line (`cartItemSchema` in `src/src/models/Cart.js`). -/
structure CartItem where
  productId : Nat
  quantity : Int
deriving DecidableEq, Repr

/-- A cart document (`src/src/models/Cart.js`), one per user. -/
structure Cart where
  userId : Nat
  items : List CartItem
deriving DecidableEq, Repr

/-- A payment document (`src/src/models/Payment.js`).  The randomly
generated `transactionId` string carries no information used by any
claim and is omitted. -/
structure Payment where
  orderId : Nat
  amount : Int
  status : PaymentStatus
deriving DecidableEq, Repr

/-- The errors thrown by the order service and the admin service, each
tagged in the source with an HTTP `statusCode` (see `SvcError.statusCode`). -/
inductive SvcError where
  | cartEmpty
  | productNotFound
  | insufficientStock
  | orderNotFound
  | unauthorizedOrder
  | invalidOrderState (current : OrderStatus)
  | deadlinePassed
  | stockCalculation
  | invalidTransition (src tgt : OrderStatus)
deriving DecidableEq, Repr

/-- The `error.statusCode` values attached in the source. -/
def SvcError.statusCode : SvcError → Int
  | .cartEmpty => 400
  | .productNotFound => 404
  | .insufficientStock => 400
  | .orderNotFound => 404
  | .unauthorizedOrder => 403
  | .invalidOrderState _ => 400
  | .deadlinePassed => 400
  | .stockCalculation => 500
  | .invalidTransition _ _ => 400

/-- The backing store: one list per MongoDB collection. -/
structure Db where
  products : List Product
  orders : List Order
  carts : List Cart
  payments : List Payment
deriving DecidableEq, Repr

/-- `Product.findById`: first product with the given id. -/
def findProductById : List Product → Nat → Option Product
  | [], _ => none
  | p :: ps, pid => if p.pid = pid then some p else findProductById ps pid

/-- `product.save()`: replace the stored document(s) with this id. -/
def saveProduct (ps : List Product) (p : Product) : List Product :=
  ps.map fun q => if q.pid = p.pid then p else q

/-- `Order.findById`. -/
def findOrderById : List Order → Nat → Option Order
  | [], _ => none
  | o :: os, oid => if o.oid = oid then some o else findOrderById os oid

/-- `order.save()`. -/
def saveOrder (os : List Order) (o : Order) : List Order :=
  os.map fun q => if q.oid = o.oid then o else q

/-- `Cart.findOne({ userId })`. -/
def findCartByUser : List Cart → Nat → Option Cart
  | [], _ => none
  | c :: cs, uid => if c.userId = uid then some c else findCartByUser cs uid

/-- `Cart.findOneAndUpdate({ userId }, { items: [] })`. -/
def clearCartOfUser (cs : List Cart) (uid : Nat) : List Cart :=
  cs.map fun c => if c.userId = uid then { c with items := [] } else c

/-- The per-item reservation loop of `checkoutWithTransaction` /
`checkoutWithoutTransaction` (`src/unnamed/part_003`, lines 66-101 and
156-189): look the product up, fail with 404 if absent, fail with 400 if
`stock - reservedStock < quantity`, otherwise increment `reservedStock`,
save, push an order item snapshotting the current price, and accumulate
`totalAmount`.  The error branch carries the products saved so far, which
persist in fallback mode and are discarded by the transactional abort. -/
def reserveItems : List CartItem → List Product → List OrderItem → Int →
    (SvcError × List Product) ⊕ (List Product × List OrderItem × Int)
  | [], ps, acc, total => Sum.inr (ps, acc, total)
  | it :: rest, ps, acc, total =>
    match findProductById ps it.productId with
    | none => Sum.inl (.productNotFound, ps)
    | some p =>
      if p.stock - p.reservedStock < it.quantity then
        Sum.inl (.insufficientStock, ps)
      else
        reserveItems rest
          (saveProduct ps { p with reservedStock := p.reservedStock + it.quantity })
          (acc ++ [{ productId := p.pid, quantity := it.quantity,
                     priceAtPurchase := p.price }])
          (total + p.price * it.quantity)

/-- `checkoutWithoutTransaction(userId)` (`src/unnamed/part_003`, lines
141-213).  `now` is `Date.now()`, `timeoutMinutes` the configurable
`ORDER_PAYMENT_TIMEOUT_MINUTES` (default 15), `newOid` the id Mongo
assigns to the created order.  On an error thrown mid-loop the products
already saved persist. -/
def checkoutWithoutTransaction (db : Db) (uid : Nat) (now timeoutMinutes : Int)
    (newOid : Nat) : (SvcError × Db) ⊕ (Db × Order) :=
  match findCartByUser db.carts uid with
  | none => Sum.inl (.cartEmpty, db)
  | some cart =>
    if cart.items = [] then Sum.inl (.cartEmpty, db)
    else
      match reserveItems cart.items db.products [] 0 with
      | Sum.inl (e, ps) => Sum.inl (e, { db with products := ps })
      | Sum.inr (ps, orderItems, totalAmount) =>
        let order : Order :=
          { oid := newOid, userId := uid, items := orderItems,
            totalAmount := totalAmount, status := .PENDING_PAYMENT,
            paymentDeadline := now + timeoutMinutes * 60 * 1000 }
        Sum.inr ({ db with products := ps, orders := db.orders ++ [order] }, order)

/-- `checkoutWithTransaction(userId)` (`src/unnamed/part_003`, lines
46-136): the same steps inside a session; any error aborts the
transaction, so the store reverts to its input state. -/
def checkoutWithTransaction (db : Db) (uid : Nat) (now timeoutMinutes : Int)
    (newOid : Nat) : (SvcError × Db) ⊕ (Db × Order) :=
  match findCartByUser db.carts uid with
  | none => Sum.inl (.cartEmpty, db)
  | some cart =>
    if cart.items = [] then Sum.inl (.cartEmpty, db)
    else
      match reserveItems cart.items db.products [] 0 with
      | Sum.inl (e, _) => Sum.inl (e, db)
      | Sum.inr (ps, orderItems, totalAmount) =>
        let order : Order :=
          { oid := newOid, userId := uid, items := orderItems,
            totalAmount := totalAmount, status := .PENDING_PAYMENT,
            paymentDeadline := now + timeoutMinutes * 60 * 1000 }
        Sum.inr ({ db with products := ps, orders := db.orders ++ [order] }, order)

/-- The per-item commit loop of `processPaymentWithTransaction` /
`processPaymentWithoutTransaction` (`src/unnamed/part_003`, lines 275-295
and 389-409): look the product up, fail with 404 if absent, decrement both
`reservedStock` and `stock` and fail with the 500 `Stock calculation
error` before saving if either would go negative.  The error branch
carries the products saved by the earlier iterations. -/
def commitItems : List OrderItem → List Product →
    (SvcError × List Product) ⊕ List Product
  | [], ps => Sum.inr ps
  | it :: rest, ps =>
    match findProductById ps it.productId with
    | none => Sum.inl (.productNotFound, ps)
    | some p =>
      let p' : Product :=
        { p with reservedStock := p.reservedStock - it.quantity,
                 stock := p.stock - it.quantity }
      if p'.reservedStock < 0 ∨ p'.stock < 0 then
        Sum.inl (.stockCalculation, ps)
      else commitItems rest (saveProduct ps p')

/-- `processPaymentWithoutTransaction(orderId, userId)`
(`src/unnamed/part_003`, lines 354-451).  `now` is `new Date()`.  Guards
in source order: order missing (404), wrong owner (403), status not
`PENDING_PAYMENT` (400), `now > paymentDeadline` (400); then the commit
loop, the status write to `PAID`, the `Payment` record with
`amount = order.totalAmount` and status `SUCCESS`, and the cart clear.
Products saved before a mid-loop error persist. -/
def processPaymentWithoutTransaction (db : Db) (orderId uid : Nat) (now : Int) :
    (SvcError × Db) ⊕ (Db × Order × Payment) :=
  match findOrderById db.orders orderId with
  | none => Sum.inl (.orderNotFound, db)
  | some order =>
    if order.userId ≠ uid then Sum.inl (.unauthorizedOrder, db)
    else if order.status ≠ .PENDING_PAYMENT then
      Sum.inl (.invalidOrderState order.status, db)
    else if order.paymentDeadline < now then Sum.inl (.deadlinePassed, db)
    else
      match commitItems order.items db.products with
      | Sum.inl (e, ps) => Sum.inl (e, { db with products := ps })
      | Sum.inr ps =>
        let order' : Order := { order with status := .PAID }
        let payment : Payment :=
          { orderId := order.oid, amount := order.totalAmount, status := .SUCCESS }
        Sum.inr ({ db with
            products := ps,
            orders := saveOrder db.orders order',
            payments := db.payments ++ [payment],
            carts := clearCartOfUser db.carts uid }, order', payment)

/-- `processPaymentWithTransaction(orderId, userId)`
(`src/unnamed/part_003`, lines 237-349): the same steps inside a session;
any error aborts the transaction, reverting the store to its input. -/
def processPaymentWithTransaction (db : Db) (orderId uid : Nat) (now : Int) :
    (SvcError × Db) ⊕ (Db × Order × Payment) :=
  match findOrderById db.orders orderId with
  | none => Sum.inl (.orderNotFound, db)
  | some order =>
    if order.userId ≠ uid then Sum.inl (.unauthorizedOrder, db)
    else if order.status ≠ .PENDING_PAYMENT then
      Sum.inl (.invalidOrderState order.status, db)
    else if order.paymentDeadline < now then Sum.inl (.deadlinePassed, db)
    else
      match commitItems order.items db.products with
      | Sum.inl (e, _) => Sum.inl (e, db)
      | Sum.inr ps =>
        let order' : Order := { order with status := .PAID }
        let payment : Payment :=
          { orderId := order.oid, amount := order.totalAmount, status := .SUCCESS }
        Sum.inr ({ db with
            products := ps,
            orders := saveOrder db.orders order',
            payments := db.payments ++ [payment],
            carts := clearCartOfUser db.carts uid }, order', payment)

/-- The release loop of `cancelOrderWithTransaction` /
`cancelOrderWithoutTransaction` (`src/unnamed/part_003`, lines 557-570 and
607-620): a missing product is skipped; otherwise `reservedStock` is
decremented by the item quantity and clamped at zero before saving. -/
def releaseItems : List OrderItem → List Product → List Product
  | [], ps => ps
  | it :: rest, ps =>
    match findProductById ps it.productId with
    | none => releaseItems rest ps
    | some p =>
      let r := p.reservedStock - it.quantity
      releaseItems rest (saveProduct ps { p with reservedStock := if r < 0 then 0 else r })

/-- `cancelOrderWithoutTransaction(orderId)` (`src/unnamed/part_003`,
lines 593-633): missing order or status other than `PENDING_PAYMENT` is a
silent no-op returning `null`; otherwise release every item's reservation
and set the status to `CANCELLED`. -/
def cancelOrderWithoutTransaction (db : Db) (orderId : Nat) : Db × Option Order :=
  match findOrderById db.orders orderId with
  | none => (db, none)
  | some order =>
    if order.status ≠ .PENDING_PAYMENT then (db, none)
    else
      let ps := releaseItems order.items db.products
      let order' : Order := { order with status := .CANCELLED }
      ({ db with products := ps, orders := saveOrder db.orders order' }, some order')

/-- `cancelOrderWithTransaction(orderId)` (`src/unnamed/part_003`, lines
538-588): the same steps inside a session; no step of the body can throw,
so the abort branch is unreachable and the behaviour coincides with the
fallback variant. -/
def cancelOrderWithTransaction (db : Db) (orderId : Nat) : Db × Option Order :=
  match findOrderById db.orders orderId with
  | none => (db, none)
  | some order =>
    if order.status ≠ .PENDING_PAYMENT then (db, none)
    else
      let ps := releaseItems order.items db.products
      let order' : Order := { order with status := .CANCELLED }
      ({ db with products := ps, orders := saveOrder db.orders order' }, some order')

/-- The `validTransitions` table of `updateOrderStatus`
(`src/src/services/adminService.js`, lines 62-68). -/
def validTransitions : OrderStatus → List OrderStatus
  | .PENDING_PAYMENT => [.CANCELLED]
  | .PAID => [.SHIPPED, .CANCELLED]
  | .SHIPPED => [.DELIVERED]
  | .DELIVERED => []
  | .CANCELLED => []

/-- `updateOrderStatus(orderId, newStatus)`
(`src/src/services/adminService.js`, lines 52-85): 404 if the order is
missing, 400 `Invalid status transition from <src> to <tgt>` if the target
is not in the table for the current status; otherwise the status field is
written and saved.  Note: no stock is touched on any path. -/
def updateOrderStatus (db : Db) (orderId : Nat) (newStatus : OrderStatus) :
    (SvcError × Db) ⊕ (Db × Order) :=
  match findOrderById db.orders orderId with
  | none => Sum.inl (.orderNotFound, db)
  | some order =>
    if newStatus ∈ validTransitions order.status then
      let order' : Order := { order with status := newStatus }
      Sum.inr ({ db with orders := saveOrder db.orders order' }, order')
    else
      Sum.inl (.invalidTransition order.status newStatus, db)

/-- `getOrderById(orderId, userId)` (`src/unnamed/part_003`, lines
501-518): 404 if missing, then 403 if the order belongs to another user,
otherwise the order. -/
def getOrderById (db : Db) (orderId uid : Nat) : Except SvcError Order :=
  match findOrderById db.orders orderId with
  | none => .error .orderNotFound
  | some order =>
    if order.userId ≠ uid then .error .unauthorizedOrder
    else .ok order

/-- Total quantity that a list of order lines requests of one product. -/
def orderQty : List OrderItem → Nat → Int
  | [], _ => 0
  | it :: rest, pid =>
    (if it.productId = pid then it.quantity else 0) + orderQty rest pid

/-- Total quantity that a list of cart lines requests of one product. -/
def cartQty : List CartItem → Nat → Int
  | [], _ => 0
  | it :: rest, pid =>
    (if it.productId = pid then it.quantity else 0) + cartQty rest pid

/-- The product collection left behind by a reservation loop, whether it
failed (fallback mode persists the partial saves) or succeeded. -/
def reserveOut :
    (SvcError × List Product) ⊕ (List Product × List OrderItem × Int) → List Product
  | Sum.inl (_, ps) => ps
  | Sum.inr (ps, _, _) => ps

/-- The product collection left behind by a commit loop. -/
def commitOut : (SvcError × List Product) ⊕ List Product → List Product
  | Sum.inl (_, ps) => ps
  | Sum.inr ps => ps

/-- The store a checkout or admin call leaves behind, error or not. -/
def chkOutDb : (SvcError × Db) ⊕ (Db × Order) → Db
  | Sum.inl (_, db) => db
  | Sum.inr (db, _) => db

/-- The store a payment call leaves behind, error or not. -/
def payOutDb : (SvcError × Db) ⊕ (Db × Order × Payment) → Db
  | Sum.inl (_, db) => db
  | Sum.inr (db, _, _) => db

/-- The per-product counter invariant of the spec:
`0 ≤ reservedStock ≤ stock`. -/
abbrev productInvariant (p : Product) : Prop :=
  0 ≤ p.reservedStock ∧ p.reservedStock ≤ p.stock

/-- The invariant over the whole product collection. -/
abbrev stockInvariant (db : Db) : Prop := ∀ p ∈ db.products, productInvariant p

/-- Well-formedness the Mongoose schemas enforce on stored documents:
every cart line and every order line has `quantity ≥ 1`
(`min: [1, 'Quantity must be at least 1']` in `Cart.js` and `Order.js`). -/
abbrev quantitiesWF (db : Db) : Prop :=
  (∀ c ∈ db.carts, ∀ it ∈ c.items, 1 ≤ it.quantity) ∧
  (∀ o ∈ db.orders, ∀ it ∈ o.items, 1 ≤ it.quantity)

/-- A store satisfying both the counter invariant and the schema bounds. -/
abbrev dbWF (db : Db) : Prop := stockInvariant db ∧ quantitiesWF db

/-- One engine operation, with the request parameters it is called with:
checkout (reserve), payment (commit), cancellation (release) — each in the
transactional and the fallback sequential variant — and the admin status
update. -/
inductive EngineOp where
  | checkoutTx (uid : Nat) (now tmo : Int) (newOid : Nat)
  | checkoutSeq (uid : Nat) (now tmo : Int) (newOid : Nat)
  | paymentTx (orderId uid : Nat) (now : Int)
  | paymentSeq (orderId uid : Nat) (now : Int)
  | cancelTx (orderId : Nat)
  | cancelSeq (orderId : Nat)
  | adminStatus (orderId : Nat) (tgt : OrderStatus)
deriving DecidableEq, Repr

/-- The store an engine operation leaves behind (error or success). -/
def applyOp (db : Db) : EngineOp → Db
  | .checkoutTx uid now tmo newOid => chkOutDb (checkoutWithTransaction db uid now tmo newOid)
  | .checkoutSeq uid now tmo newOid => chkOutDb (checkoutWithoutTransaction db uid now tmo newOid)
  | .paymentTx oid uid now => payOutDb (processPaymentWithTransaction db oid uid now)
  | .paymentSeq oid uid now => payOutDb (processPaymentWithoutTransaction db oid uid now)
  | .cancelTx oid => (cancelOrderWithTransaction db oid).1
  | .cancelSeq oid => (cancelOrderWithoutTransaction db oid).1
  | .adminStatus oid tgt => chkOutDb (updateOrderStatus db oid tgt)

/-- A sequence of engine operations applied left to right. -/
def runOps (db : Db) (ops : List EngineOp) : Db := ops.foldl applyOp db

/-! ### Concrete stores exhibiting the failure of the fallback rollbacks -/

/-- Store for the checkout-rollback analysis: product 2 has only 1 unit
available, so the second cart line fails after line 1 already reserved. -/
def dbChk : Db :=
  { products := [⟨1, 10, 5, 0⟩, ⟨2, 20, 1, 0⟩],
    orders := [],
    carts := [⟨7, [⟨1, 2⟩, ⟨2, 5⟩]⟩],
    payments := [] }

/-- Store for the admin-cancellation analysis: one pending order holding a
reservation of 2 units on product 1. -/
def dbAdm : Db :=
  { products := [⟨1, 10, 5, 2⟩],
    orders := [⟨1, 7, [⟨1, 2, 10⟩], 20, .PENDING_PAYMENT, 100⟩],
    carts := [],
    payments := [] }

/-- Store for the payment-commit analysis: the pending order references
product 1 (present, reservation 2) and product 2 (absent), so the second
commit iteration fails after the first already saved. -/
def dbPay : Db :=
  { products := [⟨1, 10, 5, 2⟩],
    orders := [⟨1, 7, [⟨1, 2, 10⟩, ⟨2, 1, 20⟩], 40, .PENDING_PAYMENT, 100⟩],
    carts := [⟨7, [⟨1, 2⟩]⟩],
    payments := [] }

/-- Store used to instantiate the deadline theorem: one pending order of
user 7 with `paymentDeadline = 10`, called at `now = 20`. -/
def dbDeadline : Db :=
  { products := [⟨1, 10, 5, 2⟩],
    orders := [⟨1, 7, [⟨1, 2, 10⟩], 20, .PENDING_PAYMENT, 10⟩],
    carts := [],
    payments := [] }

/-- Store used to instantiate the admin-gate theorem: order 1 is
`DELIVERED`, so any admin transition out of it must fail. -/
def dbDelivered : Db :=
  { products := [],
    orders := [⟨1, 7, [⟨1, 1, 10⟩], 10, .DELIVERED, 100⟩],
    carts := [],
    payments := [] }

/-- The end-to-end store of the spec's §8 scenario, just before payment:
product 1 has 2 units reserved by pending order 1 of user 7. -/
def dbPaid : Db :=
  { products := [⟨1, 10, 5, 2⟩],
    orders := [⟨1, 7, [⟨1, 2, 10⟩], 20, .PENDING_PAYMENT, 100⟩],
    carts := [⟨7, [⟨1, 2⟩]⟩],
    payments := [] }

/-- A mixed workload used to instantiate the invariant theorem: a fallback
checkout, a fallback payment of the pending order, a cancellation of the
new order, an admin transition and a transactional checkout attempt. -/
def opsRun : List EngineOp :=
  [.checkoutSeq 7 0 15 2, .paymentSeq 1 7 50, .cancelSeq 2,
   .adminStatus 1 .SHIPPED, .checkoutTx 7 0 15 3]

theorem findProductById_pid {ps : List Product} {pid : Nat} {p : Product}
    (h : findProductById ps pid = some p) : p.pid = pid := by
  induction ps with
  | nil => simp [findProductById] at h
  | cons q ps ih =>
    by_cases hq : q.pid = pid
    · rw [findProductById, if_pos hq] at h
      cases h
      exact hq
    · rw [findProductById, if_neg hq] at h
      exact ih h

theorem findProductById_mem {ps : List Product} {pid : Nat} {p : Product}
    (h : findProductById ps pid = some p) : p ∈ ps := by
  induction ps with
  | nil => simp [findProductById] at h
  | cons q ps ih =>
    by_cases hq : q.pid = pid
    · rw [findProductById, if_pos hq] at h
      cases h
      exact List.mem_cons_self _ _
    · rw [findProductById, if_neg hq] at h
      exact List.mem_cons_of_mem _ (ih h)

theorem mem_saveProduct {ps : List Product} {p q : Product}
    (h : q ∈ saveProduct ps p) : q = p ∨ q ∈ ps := by
  rcases List.mem_map.1 h with ⟨a, ha, rfl⟩
  by_cases hc : a.pid = p.pid
  · simp [hc]
  · simp [hc]
    exact Or.inr ha

theorem findProductById_save_ne {ps : List Product} {p : Product} {pid : Nat}
    (hne : pid ≠ p.pid) :
    findProductById (saveProduct ps p) pid = findProductById ps pid := by
  induction ps with
  | nil => rfl
  | cons q ps ih =>
    by_cases hq : q.pid = p.pid
    · have hp : ¬ p.pid = pid := fun h => hne h.symm
      have hq' : ¬ q.pid = pid := by rw [hq]; exact hp
      simp only [saveProduct, List.map_cons, if_pos hq, findProductById,
        if_neg hp, if_neg hq']
      exact ih
    · simp only [saveProduct, List.map_cons, if_neg hq, findProductById]
      by_cases hq' : q.pid = pid
      · rw [if_pos hq', if_pos hq']
      · rw [if_neg hq', if_neg hq']
        exact ih

theorem findProductById_save_self {ps : List Product} {p q : Product}
    (h : findProductById ps p.pid = some q) :
    findProductById (saveProduct ps p) p.pid = some p := by
  induction ps with
  | nil => simp [findProductById] at h
  | cons r ps ih =>
    by_cases hr : r.pid = p.pid
    · simp [saveProduct, findProductById, hr]
    · rw [findProductById, if_neg hr] at h
      simp only [saveProduct, List.map_cons, if_neg hr, findProductById, if_neg hr]
      exact ih h

theorem findOrderById_oid {os : List Order} {oid : Nat} {o : Order}
    (h : findOrderById os oid = some o) : o.oid = oid := by
  induction os with
  | nil => simp [findOrderById] at h
  | cons q os ih =>
    by_cases hq : q.oid = oid
    · rw [findOrderById, if_pos hq] at h
      cases h
      exact hq
    · rw [findOrderById, if_neg hq] at h
      exact ih h

theorem mem_saveOrder {os : List Order} {o q : Order}
    (h : q ∈ saveOrder os o) : q = o ∨ q ∈ os := by
  rcases List.mem_map.1 h with ⟨a, ha, rfl⟩
  by_cases hc : a.oid = o.oid
  · simp [hc]
  · simp [hc]
    exact Or.inr ha

theorem findOrderById_save_self {os : List Order} {o q : Order}
    (h : findOrderById os o.oid = some q) :
    findOrderById (saveOrder os o) o.oid = some o := by
  induction os with
  | nil => simp [findOrderById] at h
  | cons r os ih =>
    by_cases hr : r.oid = o.oid
    · simp [saveOrder, findOrderById, hr]
    · rw [findOrderById, if_neg hr] at h
      simp only [saveOrder, List.map_cons, if_neg hr, findOrderById, if_neg hr]
      exact ih h

/-- **C1.** During checkout on `dbChk` the second cart line fails with
`insufficientStock`.  The transactional variant rolls the store back, but
the fallback variant surfaces the error with product 1's `reservedStock`
still incremented to 2 — the reservation taken by the first line is never
released, contradicting the all-or-nothing requirement for the fallback
(sequential) mode. -/
theorem checkout_fallback_leaks_reservation :
    checkoutWithTransaction dbChk 7 0 15 1 = Sum.inl (.insufficientStock, dbChk) ∧
    checkoutWithoutTransaction dbChk 7 0 15 1 =
      Sum.inl (.insufficientStock,
        { dbChk with products := [⟨1, 10, 5, 2⟩, ⟨2, 20, 1, 0⟩] }) ∧
    (findProductById dbChk.products 1).map Product.reservedStock = some 0 ∧
    (findProductById [⟨1, 10, 5, 2⟩, ⟨2, 20, 1, 0⟩] 1).map Product.reservedStock =
      some 2 := by
  refine ⟨rfl, rfl, rfl, rfl⟩

/-- **C2.** On `dbAdm`, the admin transition `PENDING_PAYMENT → CANCELLED`
through `updateOrderStatus` writes the status but leaves product 1's
`reservedStock` at 2, whereas `cancelOrderWithoutTransaction` on the very
same store releases it to 0: the admin path does not route through the
stock-release path. -/
theorem adminCancel_skips_stock_release :
    updateOrderStatus dbAdm 1 .CANCELLED =
      Sum.inr ({ dbAdm with orders := [⟨1, 7, [⟨1, 2, 10⟩], 20, .CANCELLED, 100⟩] },
               ⟨1, 7, [⟨1, 2, 10⟩], 20, .CANCELLED, 100⟩) ∧
    Db.products { dbAdm with orders := [⟨1, 7, [⟨1, 2, 10⟩], 20, .CANCELLED, 100⟩] } =
      [⟨1, 10, 5, 2⟩] ∧
    (cancelOrderWithoutTransaction dbAdm 1).1.products = [⟨1, 10, 5, 0⟩] := by
  refine ⟨rfl, rfl, rfl⟩

/-- **C3.** During payment on `dbPay` the second commit iteration fails
with `productNotFound`.  The transactional variant reverts everything, but
the fallback variant has already persisted the first iteration: product 1
ends with `stock = 3`, `reservedStock = 0` even though the payment failed.
Order status and payment records are untouched in both variants. -/
theorem payment_fallback_commits_partially :
    processPaymentWithTransaction dbPay 1 7 50 = Sum.inl (.productNotFound, dbPay) ∧
    processPaymentWithoutTransaction dbPay 1 7 50 =
      Sum.inl (.productNotFound, { dbPay with products := [⟨1, 10, 3, 0⟩] }) ∧
    (findProductById dbPay.products 1).map (fun p => (p.stock, p.reservedStock)) =
      some (5, 2) ∧
    (findProductById [⟨1, 10, 3, 0⟩] 1).map (fun p => (p.stock, p.reservedStock)) =
      some (3, 0) := by
  refine ⟨rfl, rfl, rfl, rfl⟩

/-- **C7.** A `ProcessPayment` call strictly after the order's
`paymentDeadline` on a `PENDING_PAYMENT` order of the caller fails with
the deadline error (`Payment deadline has passed`, 400) and returns the
store exactly as it was — no product counter, order or payment record
changes — in both the transactional and the fallback variant. -/
theorem processPayment_after_deadline_unchanged (db : Db) (oid uid : Nat)
    (now : Int) (order : Order)
    (hord : findOrderById db.orders oid = some order)
    (hown : order.userId = uid)
    (hst : order.status = .PENDING_PAYMENT)
    (hdl : order.paymentDeadline < now) :
    processPaymentWithoutTransaction db oid uid now = Sum.inl (.deadlinePassed, db) ∧
    processPaymentWithTransaction db oid uid now = Sum.inl (.deadlinePassed, db) ∧
    SvcError.deadlinePassed.statusCode = 400 := by
  refine ⟨?_, ?_, rfl⟩ <;>
    simp [processPaymentWithoutTransaction, processPaymentWithTransaction,
      hord, hown, hst, hdl]

theorem processPayment_after_deadline_unchanged_holds :
    processPaymentWithoutTransaction dbDeadline 1 7 20 =
      Sum.inl (.deadlinePassed, dbDeadline) ∧
    processPaymentWithTransaction dbDeadline 1 7 20 =
      Sum.inl (.deadlinePassed, dbDeadline) ∧
    SvcError.deadlinePassed.statusCode = 400 :=
  processPayment_after_deadline_unchanged dbDeadline 1 7 20
    ⟨1, 7, [⟨1, 2, 10⟩], 20, .PENDING_PAYMENT, 10⟩ rfl rfl rfl (by decide)

/-- **C8.** `CancelOrder` is a guarded, idempotent no-op: a missing order
or one outside `PENDING_PAYMENT` leaves the store untouched and returns
`null` without error, the transactional and fallback variants coincide,
and a second cancellation applied after any first one changes nothing and
returns `null` — so stock is never released twice. -/
theorem cancelOrder_guarded_idempotent (db : Db) (oid : Nat) :
    (findOrderById db.orders oid = none →
      cancelOrderWithoutTransaction db oid = (db, none)) ∧
    (∀ o, findOrderById db.orders oid = some o → o.status ≠ .PENDING_PAYMENT →
      cancelOrderWithoutTransaction db oid = (db, none)) ∧
    cancelOrderWithTransaction db oid = cancelOrderWithoutTransaction db oid ∧
    cancelOrderWithoutTransaction (cancelOrderWithoutTransaction db oid).1 oid =
      ((cancelOrderWithoutTransaction db oid).1, none) := by
  refine ⟨fun hnone => ?_, fun o ho hst => ?_, rfl, ?_⟩
  · simp [cancelOrderWithoutTransaction, hnone]
  · simp [cancelOrderWithoutTransaction, ho, hst]
  · cases hfind : findOrderById db.orders oid with
    | none => simp [cancelOrderWithoutTransaction, hfind]
    | some o =>
      by_cases hst : o.status = .PENDING_PAYMENT
      · have hoid : o.oid = oid := findOrderById_oid hfind
        have hfind2 : findOrderById db.orders o.oid = some o := by
          rw [hoid]; exact hfind
        have hsaved : findOrderById
            (saveOrder db.orders { o with status := OrderStatus.CANCELLED }) oid =
            some { o with status := OrderStatus.CANCELLED } := by
          rw [← hoid]
          exact findOrderById_save_self (o := { o with status := OrderStatus.CANCELLED })
            hfind2
        simp [cancelOrderWithoutTransaction, hfind, hst, hsaved]
      · simp [cancelOrderWithoutTransaction, hfind, hst]

theorem cancelOrder_guarded_idempotent_holds :
    cancelOrderWithoutTransaction (cancelOrderWithoutTransaction dbAdm 1).1 1 =
      ((cancelOrderWithoutTransaction dbAdm 1).1, none) :=
  (cancelOrder_guarded_idempotent dbAdm 1).2.2.2

/-- **C9.** For an existing order, `updateOrderStatus` fails with
`Invalid status transition from <src> to <tgt>` (carrying both statuses,
code 400) exactly when the target is not in the `validTransitions` table
for the current status, leaving the store untouched; otherwise it writes
the new status and changes nothing but the order collection.  From
`DELIVERED` or `CANCELLED` every target fails. -/
theorem updateOrderStatus_gate (db : Db) (oid : Nat) (tgt : OrderStatus)
    (order : Order) (hord : findOrderById db.orders oid = some order) :
    (tgt ∉ validTransitions order.status →
      updateOrderStatus db oid tgt =
        Sum.inl (.invalidTransition order.status tgt, db) ∧
      (SvcError.invalidTransition order.status tgt).statusCode = 400) ∧
    (tgt ∈ validTransitions order.status →
      updateOrderStatus db oid tgt =
        Sum.inr ({ db with orders := saveOrder db.orders { order with status := tgt } },
                 { order with status := tgt })) ∧
    (order.status = .DELIVERED ∨ order.status = .CANCELLED →
      updateOrderStatus db oid tgt =
        Sum.inl (.invalidTransition order.status tgt, db)) := by
  refine ⟨fun hnot => ⟨?_, rfl⟩, fun hin => ?_, fun hterm => ?_⟩
  · simp [updateOrderStatus, hord, hnot]
  · simp [updateOrderStatus, hord, hin]
  · have hnot : tgt ∉ validTransitions order.status := by
      rcases hterm with h | h <;> simp [h, validTransitions]
    simp [updateOrderStatus, hord, hnot]

theorem updateOrderStatus_gate_holds :
    updateOrderStatus dbDelivered 1 .PAID =
      Sum.inl (.invalidTransition .DELIVERED .PAID, dbDelivered) :=
  ((updateOrderStatus_gate dbDelivered 1 .PAID
      ⟨1, 7, [⟨1, 1, 10⟩], 10, .DELIVERED, 100⟩ rfl).2.2 (Or.inl rfl))

/-- **C10.** `getOrderById` checks existence before ownership: a missing
order yields the 404 `Order not found` error; an existing order owned by
another user yields the 403 `Unauthorized access to order` error and the
order is not returned; the owner receives the order. -/
theorem getOrderById_existence_then_ownership (db : Db) (oid uid : Nat) :
    (findOrderById db.orders oid = none →
      getOrderById db oid uid = .error .orderNotFound ∧
      SvcError.orderNotFound.statusCode = 404) ∧
    (∀ o, findOrderById db.orders oid = some o → o.userId ≠ uid →
      getOrderById db oid uid = .error .unauthorizedOrder ∧
      SvcError.unauthorizedOrder.statusCode = 403) ∧
    (∀ o, findOrderById db.orders oid = some o → o.userId = uid →
      getOrderById db oid uid = .ok o) := by
  refine ⟨fun hnone => ⟨?_, rfl⟩, fun o ho hne => ⟨?_, rfl⟩, fun o ho heq => ?_⟩
  · simp [getOrderById, hnone]
  · simp [getOrderById, ho, hne]
  · simp [getOrderById, ho, heq]

theorem getOrderById_existence_then_ownership_holds :
    getOrderById dbAdm 1 9 = .error .unauthorizedOrder ∧
    SvcError.unauthorizedOrder.statusCode = 403 :=
  (getOrderById_existence_then_ownership dbAdm 1 9).2.1
    ⟨1, 7, [⟨1, 2, 10⟩], 20, .PENDING_PAYMENT, 100⟩ rfl (by decide)

theorem findOrderById_mem {os : List Order} {oid : Nat} {o : Order}
    (h : findOrderById os oid = some o) : o ∈ os := by
  induction os with
  | nil => simp [findOrderById] at h
  | cons q os ih =>
    by_cases hq : q.oid = oid
    · rw [findOrderById, if_pos hq] at h
      cases h
      exact List.mem_cons_self _ _
    · rw [findOrderById, if_neg hq] at h
      exact List.mem_cons_of_mem _ (ih h)

theorem clearCartOfUser_items {cs : List Cart} {uid : Nat} :
    ∀ c ∈ clearCartOfUser cs uid, c.userId = uid → c.items = [] := by
  intro c hc hcu
  rcases List.mem_map.1 hc with ⟨a, _, rfl⟩
  by_cases h : a.userId = uid
  · simp [h]
  · rw [if_neg h] at hcu
    exact absurd hcu h

/-- Characterisation of a successful commit loop: every product present
beforehand is still present, with `stock` and `reservedStock` both lowered
by the total quantity the order lines request of it, and `pid` and `price`
untouched. -/
theorem commitItems_inr_find {its : List OrderItem} {ps ps' : List Product}
    (h : commitItems its ps = Sum.inr ps') {pid : Nat} {p : Product}
    (hp : findProductById ps pid = some p) :
    ∃ p', findProductById ps' pid = some p' ∧ p'.pid = p.pid ∧ p'.price = p.price ∧
      p'.stock = p.stock - orderQty its pid ∧
      p'.reservedStock = p.reservedStock - orderQty its pid := by
  induction its generalizing ps p with
  | nil =>
    rw [commitItems] at h
    cases h
    exact ⟨p, hp, rfl, rfl, by simp [orderQty], by simp [orderQty]⟩
  | cons it rest ih =>
    cases hq : findProductById ps it.productId with
    | none =>
      simp only [commitItems, hq] at h
      exact Sum.noConfusion h
    | some q =>
      simp only [commitItems, hq] at h
      by_cases hneg : q.reservedStock - it.quantity < 0 ∨ q.stock - it.quantity < 0
      · rw [if_pos hneg] at h
        exact Sum.noConfusion h
      · rw [if_neg hneg] at h
        by_cases hpid : pid = it.productId
        · subst hpid
          rw [hp] at hq
          cases hq
          have hppid : p.pid = it.productId := findProductById_pid hp
          have hfind2 : findProductById ps p.pid = some p := by
            rw [hppid]; exact hp
          have hsaved : findProductById
              (saveProduct ps
                { p with reservedStock := p.reservedStock - it.quantity,
                         stock := p.stock - it.quantity }) it.productId =
              some { p with reservedStock := p.reservedStock - it.quantity,
                            stock := p.stock - it.quantity } := by
            rw [← hppid]
            exact findProductById_save_self
              (p := { p with reservedStock := p.reservedStock - it.quantity,
                             stock := p.stock - it.quantity }) hfind2
          obtain ⟨p', hfind', hpid', hprice', hstock', hres'⟩ := ih h hsaved
          refine ⟨p', hfind', hpid', hprice', ?_, ?_⟩
          · rw [hstock']
            simp [orderQty]
            omega
          · rw [hres']
            simp [orderQty]
            omega
        · have hqpid : q.pid = it.productId := findProductById_pid hq
          have hne : pid ≠ q.pid := by rw [hqpid]; exact hpid
          have hstep : findProductById
              (saveProduct ps
                { q with reservedStock := q.reservedStock - it.quantity,
                         stock := q.stock - it.quantity }) pid =
              findProductById ps pid :=
            findProductById_save_ne hne
          obtain ⟨p', hfind', hpid', hprice', hstock', hres'⟩ :=
            ih h (by rw [hstep]; exact hp)
          have hne2 : ¬ it.productId = pid := fun hco => hpid hco.symm
          refine ⟨p', hfind', hpid', hprice', ?_, ?_⟩
          · rw [hstock']
            simp [orderQty, hne2]
          · rw [hres']
            simp [orderQty, hne2]

/-- **C5.** A successful fallback `ProcessPayment` sets the order to
`PAID`, appends exactly one `SUCCESS` payment with `amount` equal to the
order's `totalAmount`, clears the caller's cart, and lowers each
referenced product's `stock` and `reservedStock` by the total quantity the
order's lines request of it. -/
theorem processPayment_fallback_success_state (db : Db) (oid uid : Nat)
    (now : Int) (order : Order) (db' : Db) (order' : Order) (payment : Payment)
    (hord : findOrderById db.orders oid = some order)
    (h : processPaymentWithoutTransaction db oid uid now =
      Sum.inr (db', order', payment)) :
    order' = { order with status := .PAID } ∧
    findOrderById db'.orders oid = some order' ∧
    db'.payments = db.payments ++ [payment] ∧
    payment.status = .SUCCESS ∧
    payment.amount = order.totalAmount ∧
    payment.orderId = order.oid ∧
    (∀ c ∈ db'.carts, c.userId = uid → c.items = []) ∧
    (∀ pid p, findProductById db.products pid = some p →
      ∃ p', findProductById db'.products pid = some p' ∧
        p'.stock = p.stock - orderQty order.items pid ∧
        p'.reservedStock = p.reservedStock - orderQty order.items pid) := by
  simp only [processPaymentWithoutTransaction, hord] at h
  split at h
  · exact Sum.noConfusion h
  · split at h
    · exact Sum.noConfusion h
    · split at h
      · exact Sum.noConfusion h
      · cases hc : commitItems order.items db.products with
        | inl ep =>
          rw [hc] at h
          exact Sum.noConfusion h
        | inr ps2 =>
          rw [hc] at h
          injection h with h'
          injection h' with hdb h''
          injection h'' with hordeq hpay
          subst hdb
          subst hordeq
          subst hpay
          have hoid : order.oid = oid := findOrderById_oid hord
          have hford2 : findOrderById db.orders order.oid = some order := by
            rw [hoid]; exact hord
          refine ⟨rfl, ?_, rfl, rfl, rfl, rfl, ?_, ?_⟩
          · show findOrderById (saveOrder db.orders { order with status := .PAID }) oid =
              some { order with status := .PAID }
            rw [← hoid]
            exact findOrderById_save_self (o := { order with status := .PAID }) hford2
          · exact clearCartOfUser_items
          · intro pid p hp
            obtain ⟨p', h1, _, _, h4, h5⟩ := commitItems_inr_find hc hp
            exact ⟨p', h1, h4, h5⟩

theorem processPayment_fallback_success_state_holds :
    findOrderById (payOutDb (processPaymentWithoutTransaction dbPaid 1 7 50)).orders 1 =
      some ⟨1, 7, [⟨1, 2, 10⟩], 20, .PAID, 100⟩ ∧
    (payOutDb (processPaymentWithoutTransaction dbPaid 1 7 50)).payments =
      dbPaid.payments ++ [⟨1, 20, .SUCCESS⟩] ∧
    Payment.status ⟨1, 20, .SUCCESS⟩ = .SUCCESS ∧
    Payment.amount ⟨1, 20, .SUCCESS⟩ =
      Order.totalAmount ⟨1, 7, [⟨1, 2, 10⟩], 20, .PENDING_PAYMENT, 100⟩ := by
  have H := processPayment_fallback_success_state dbPaid 1 7 50
    ⟨1, 7, [⟨1, 2, 10⟩], 20, .PENDING_PAYMENT, 100⟩
    { products := [⟨1, 10, 3, 0⟩],
      orders := [⟨1, 7, [⟨1, 2, 10⟩], 20, .PAID, 100⟩],
      carts := [⟨7, []⟩],
      payments := [⟨1, 20, .SUCCESS⟩] }
    ⟨1, 7, [⟨1, 2, 10⟩], 20, .PAID, 100⟩
    ⟨1, 20, .SUCCESS⟩ rfl rfl
  exact ⟨H.2.1, H.2.2.1, H.2.2.2.1, H.2.2.2.2.1⟩

/-- Saving a product with only its `reservedStock` changed never changes
the price any lookup observes. -/
theorem findProductById_save_map_price {ps : List Product} {q : Product} {x : Int}
    {pid : Nat} (hq : findProductById ps q.pid = some q) :
    (findProductById (saveProduct ps { q with reservedStock := x }) pid).map
        Product.price =
      (findProductById ps pid).map Product.price := by
  by_cases hp : pid = q.pid
  · subst hp
    have h2 : findProductById (saveProduct ps { q with reservedStock := x }) q.pid =
        some { q with reservedStock := x } :=
      findProductById_save_self (p := { q with reservedStock := x }) hq
    rw [h2, hq]
    rfl
  · have h2 : findProductById (saveProduct ps { q with reservedStock := x }) pid =
        findProductById ps pid :=
      findProductById_save_ne hp
    rw [h2]

/-- Characterisation of a successful reservation loop: the produced order
lines extend the accumulator with one line per cart line, copying its
quantity, referencing its product and snapshotting that product's current
price, and the running total accumulates `price × quantity`. -/
theorem reserveItems_inr_items {its : List CartItem} {ps ps' : List Product}
    {acc ois : List OrderItem} {tot t : Int}
    (h : reserveItems its ps acc tot = Sum.inr (ps', ois, t)) :
    ∃ tail, ois = acc ++ tail ∧
      t = tot + (tail.map fun oi => oi.priceAtPurchase * oi.quantity).sum ∧
      List.Forall₂ (fun (it : CartItem) (oi : OrderItem) =>
        oi.productId = it.productId ∧ oi.quantity = it.quantity ∧
        (findProductById ps it.productId).map Product.price = some oi.priceAtPurchase)
        its tail := by
  induction its generalizing ps acc tot with
  | nil =>
    rw [reserveItems] at h
    cases h
    exact ⟨[], by simp, by simp, List.Forall₂.nil⟩
  | cons it rest ih =>
    cases hq : findProductById ps it.productId with
    | none =>
      simp only [reserveItems, hq] at h
      exact Sum.noConfusion h
    | some q =>
      simp only [reserveItems, hq] at h
      by_cases havail : q.stock - q.reservedStock < it.quantity
      · rw [if_pos havail] at h
        exact Sum.noConfusion h
      · rw [if_neg havail] at h
        obtain ⟨tail', htail, hsum, hfa⟩ := ih h
        refine ⟨{ productId := q.pid, quantity := it.quantity,
                  priceAtPurchase := q.price } :: tail', ?_, ?_, ?_⟩
        · rw [htail]
          simp
        · rw [hsum]
          simp [List.sum_cons]
          ring
        · refine List.Forall₂.cons ⟨findProductById_pid hq, rfl, by rw [hq]; rfl⟩ ?_
          refine List.Forall₂.imp ?_ hfa
          intro a b hab
          obtain ⟨h1, h2, h3⟩ := hab
          refine ⟨h1, h2, ?_⟩
          rw [← h3]
          have hqq : findProductById ps q.pid = some q := by
            rw [findProductById_pid hq]
            exact hq
          exact (@findProductById_save_map_price ps q
            (q.reservedStock + it.quantity) a.productId hqq).symm

/-- Characterisation of a successful reservation loop on the product side:
every product keeps its id, price and stock, and its `reservedStock` grows
by the total quantity the cart lines request of it. -/
theorem reserveItems_inr_find {its : List CartItem} {ps ps' : List Product}
    {acc : List OrderItem} {tot : Int} {ois : List OrderItem} {t : Int}
    (h : reserveItems its ps acc tot = Sum.inr (ps', ois, t)) {pid : Nat} {p : Product}
    (hp : findProductById ps pid = some p) :
    ∃ p', findProductById ps' pid = some p' ∧ p'.pid = p.pid ∧ p'.price = p.price ∧
      p'.stock = p.stock ∧
      p'.reservedStock = p.reservedStock + cartQty its pid := by
  induction its generalizing ps acc tot p with
  | nil =>
    rw [reserveItems] at h
    cases h
    exact ⟨p, hp, rfl, rfl, rfl, by simp [cartQty]⟩
  | cons it rest ih =>
    cases hq : findProductById ps it.productId with
    | none =>
      simp only [reserveItems, hq] at h
      exact Sum.noConfusion h
    | some q =>
      simp only [reserveItems, hq] at h
      by_cases havail : q.stock - q.reservedStock < it.quantity
      · rw [if_pos havail] at h
        exact Sum.noConfusion h
      · rw [if_neg havail] at h
        by_cases hpid : pid = it.productId
        · subst hpid
          rw [hp] at hq
          cases hq
          have hppid : p.pid = it.productId := findProductById_pid hp
          have hfind2 : findProductById ps p.pid = some p := by
            rw [hppid]
            exact hp
          have hsaved : findProductById
              (saveProduct ps { p with reservedStock := p.reservedStock + it.quantity })
                it.productId =
              some { p with reservedStock := p.reservedStock + it.quantity } := by
            rw [← hppid]
            exact findProductById_save_self
              (p := { p with reservedStock := p.reservedStock + it.quantity }) hfind2
          obtain ⟨p', hfind', hpid', hprice', hstock', hres'⟩ := ih h hsaved
          refine ⟨p', hfind', hpid', hprice', hstock', ?_⟩
          rw [hres']
          simp [cartQty]
          omega
        · have hqpid : q.pid = it.productId := findProductById_pid hq
          have hne : pid ≠ q.pid := by
            rw [hqpid]
            exact hpid
          have hstep : findProductById
              (saveProduct ps { q with reservedStock := q.reservedStock + it.quantity })
                pid =
              findProductById ps pid :=
            findProductById_save_ne hne
          obtain ⟨p', hfind', hpid', hprice', hstock', hres'⟩ :=
            ih h (by rw [hstep]; exact hp)
          have hne2 : ¬ it.productId = pid := fun hco => hpid hco.symm
          refine ⟨p', hfind', hpid', hprice', hstock', ?_⟩
          rw [hres']
          simp [cartQty, hne2]

/-- **C6.** Fallback checkout fails with the 400 `Cart is empty` error,
leaving the store untouched, exactly when the user's cart is missing or
empty; a successful checkout creates a `PENDING_PAYMENT` order whose lines
copy each cart line's quantity and snapshot the product's current price as
`priceAtPurchase`, whose `totalAmount` is the sum of
`priceAtPurchase × quantity`, whose `paymentDeadline` is
`now + timeout·60000`, and it raises each referenced product's
`reservedStock` by the requested total while touching nothing else on the
product. -/
theorem checkout_fallback_spec (db : Db) (uid : Nat) (now tmo : Int) (newOid : Nat) :
    ((findCartByUser db.carts uid = none ∨
        (∃ cart, findCartByUser db.carts uid = some cart ∧ cart.items = [])) →
      checkoutWithoutTransaction db uid now tmo newOid = Sum.inl (.cartEmpty, db) ∧
      SvcError.cartEmpty.statusCode = 400) ∧
    (∀ db' order,
      checkoutWithoutTransaction db uid now tmo newOid = Sum.inr (db', order) →
      order.status = .PENDING_PAYMENT ∧
      order.userId = uid ∧
      order.oid = newOid ∧
      order.paymentDeadline = now + tmo * 60 * 1000 ∧
      order.totalAmount =
        (order.items.map fun oi => oi.priceAtPurchase * oi.quantity).sum ∧
      db'.orders = db.orders ++ [order] ∧
      (∃ cart, findCartByUser db.carts uid = some cart ∧ cart.items ≠ [] ∧
        List.Forall₂ (fun (it : CartItem) (oi : OrderItem) =>
          oi.productId = it.productId ∧ oi.quantity = it.quantity ∧
          (findProductById db.products it.productId).map Product.price =
            some oi.priceAtPurchase) cart.items order.items ∧
        (∀ pid p, findProductById db.products pid = some p →
          ∃ p', findProductById db'.products pid = some p' ∧
            p'.price = p.price ∧ p'.stock = p.stock ∧
            p'.reservedStock = p.reservedStock + cartQty cart.items pid))) := by
  constructor
  · intro hemp
    rcases hemp with hnone | ⟨cart, hsome, hitems⟩
    · exact ⟨by simp [checkoutWithoutTransaction, hnone], rfl⟩
    · exact ⟨by simp [checkoutWithoutTransaction, hsome, hitems], rfl⟩
  · intro db' order h
    cases hcart : findCartByUser db.carts uid with
    | none =>
      simp only [checkoutWithoutTransaction, hcart] at h
      exact Sum.noConfusion h
    | some cart =>
      simp only [checkoutWithoutTransaction, hcart] at h
      by_cases hit : cart.items = []
      · rw [if_pos hit] at h
        exact Sum.noConfusion h
      · rw [if_neg hit] at h
        cases hres : reserveItems cart.items db.products [] 0 with
        | inl ep =>
          rw [hres] at h
          exact Sum.noConfusion h
        | inr r =>
          obtain ⟨ps2, ois, tot⟩ := r
          rw [hres] at h
          simp only [] at h
          injection h with h'
          injection h' with hdb hordeq
          subst hdb
          subst hordeq
          obtain ⟨tail, htail, hsum, hfa⟩ := reserveItems_inr_items hres
          simp only [List.nil_append] at htail
          subst htail
          refine ⟨rfl, rfl, rfl, rfl, ?_, rfl, cart, rfl, hit, hfa, ?_⟩
          · rw [hsum]
            simp
          · intro pid p hp
            obtain ⟨p', h1, _, h3, h4, h5⟩ := reserveItems_inr_find hres hp
            exact ⟨p', h1, h3, h4, h5⟩

theorem checkout_fallback_spec_holds :
    Order.status ⟨2, 7, [⟨1, 2, 10⟩], 20, .PENDING_PAYMENT, 900000⟩ =
      .PENDING_PAYMENT ∧
    Order.paymentDeadline ⟨2, 7, [⟨1, 2, 10⟩], 20, .PENDING_PAYMENT, 900000⟩ =
      0 + 15 * 60 * 1000 ∧
    Order.totalAmount ⟨2, 7, [⟨1, 2, 10⟩], 20, .PENDING_PAYMENT, 900000⟩ =
      ((Order.items ⟨2, 7, [⟨1, 2, 10⟩], 20, .PENDING_PAYMENT, 900000⟩).map
        fun oi => oi.priceAtPurchase * oi.quantity).sum := by
  have H := (checkout_fallback_spec dbPaid 7 0 15 2).2
    { products := [⟨1, 10, 5, 4⟩],
      orders := [⟨1, 7, [⟨1, 2, 10⟩], 20, .PENDING_PAYMENT, 100⟩,
                 ⟨2, 7, [⟨1, 2, 10⟩], 20, .PENDING_PAYMENT, 900000⟩],
      carts := [⟨7, [⟨1, 2⟩]⟩],
      payments := [] }
    ⟨2, 7, [⟨1, 2, 10⟩], 20, .PENDING_PAYMENT, 900000⟩ (by decide)
  exact ⟨H.1, H.2.2.2.1, H.2.2.2.2.1⟩

theorem findCartByUser_mem {cs : List Cart} {uid : Nat} {c : Cart}
    (h : findCartByUser cs uid = some c) : c ∈ cs := by
  induction cs with
  | nil => simp [findCartByUser] at h
  | cons a cs ih =>
    by_cases ha : a.userId = uid
    · rw [findCartByUser, if_pos ha] at h
      cases h
      exact List.mem_cons_self _ _
    · rw [findCartByUser, if_neg ha] at h
      exact List.mem_cons_of_mem _ (ih h)

/-- The reservation loop preserves the counter invariant on every product
it leaves behind, in the error branch as well as on success, as long as
the requested quantities are at least 1. -/
theorem reserveItems_out_inv {its : List CartItem} {ps : List Product}
    {acc : List OrderItem} {tot : Int}
    (hps : ∀ p ∈ ps, productInvariant p) (hits : ∀ it ∈ its, 1 ≤ it.quantity) :
    ∀ p ∈ reserveOut (reserveItems its ps acc tot), productInvariant p := by
  induction its generalizing ps acc tot with
  | nil =>
    simp only [reserveItems, reserveOut]
    exact hps
  | cons it rest ih =>
    cases hq : findProductById ps it.productId with
    | none =>
      simp only [reserveItems, hq, reserveOut]
      exact hps
    | some q =>
      simp only [reserveItems, hq]
      by_cases havail : q.stock - q.reservedStock < it.quantity
      · rw [if_pos havail]
        simp only [reserveOut]
        exact hps
      · rw [if_neg havail]
        refine ih ?_ ?_
        · intro p hp
          rcases mem_saveProduct hp with rfl | hmem
          · obtain ⟨h1, h2⟩ := hps q (findProductById_mem hq)
            have hq1 : 1 ≤ it.quantity := hits it (List.mem_cons_self _ _)
            constructor
            · show (0 : Int) ≤ q.reservedStock + it.quantity
              omega
            · show q.reservedStock + it.quantity ≤ q.stock
              omega
          · exact hps p hmem
        · exact fun it2 h2 => hits it2 (List.mem_cons_of_mem _ h2)

/-- The commit loop preserves the counter invariant on every product it
leaves behind: the negativity guard runs before each save. -/
theorem commitItems_out_inv {its : List OrderItem} {ps : List Product}
    (hps : ∀ p ∈ ps, productInvariant p) :
    ∀ p ∈ commitOut (commitItems its ps), productInvariant p := by
  induction its generalizing ps with
  | nil =>
    simp only [commitItems, commitOut]
    exact hps
  | cons it rest ih =>
    cases hq : findProductById ps it.productId with
    | none =>
      simp only [commitItems, hq, commitOut]
      exact hps
    | some q =>
      simp only [commitItems, hq]
      by_cases hneg : q.reservedStock - it.quantity < 0 ∨ q.stock - it.quantity < 0
      · rw [if_pos hneg]
        simp only [commitOut]
        exact hps
      · rw [if_neg hneg]
        refine ih ?_
        intro p hp
        rcases mem_saveProduct hp with rfl | hmem
        · obtain ⟨h1, h2⟩ := hps q (findProductById_mem hq)
          constructor
          · show (0 : Int) ≤ q.reservedStock - it.quantity
            omega
          · show q.reservedStock - it.quantity ≤ q.stock - it.quantity
            omega
        · exact hps p hmem

/-- The release loop preserves the counter invariant: the decrement is
clamped at zero before each save. -/
theorem releaseItems_out_inv {its : List OrderItem} {ps : List Product}
    (hps : ∀ p ∈ ps, productInvariant p) (hits : ∀ it ∈ its, 1 ≤ it.quantity) :
    ∀ p ∈ releaseItems its ps, productInvariant p := by
  induction its generalizing ps with
  | nil =>
    simp only [releaseItems]
    exact hps
  | cons it rest ih =>
    cases hq : findProductById ps it.productId with
    | none =>
      simp only [releaseItems, hq]
      exact ih hps fun it2 h2 => hits it2 (List.mem_cons_of_mem _ h2)
    | some q =>
      simp only [releaseItems, hq]
      refine ih ?_ fun it2 h2 => hits it2 (List.mem_cons_of_mem _ h2)
      intro p hp
      rcases mem_saveProduct hp with rfl | hmem
      · obtain ⟨h1, h2⟩ := hps q (findProductById_mem hq)
        have hq1 : 1 ≤ it.quantity := hits it (List.mem_cons_self _ _)
        constructor
        · show (0 : Int) ≤
            if q.reservedStock - it.quantity < 0 then 0 else q.reservedStock - it.quantity
          split_ifs <;> omega
        · show (if q.reservedStock - it.quantity < 0 then (0 : Int)
              else q.reservedStock - it.quantity) ≤ q.stock
          split_ifs <;> omega
      · exact hps p hmem

/-- A successful reservation loop only produces order lines with
`quantity ≥ 1` when the cart lines and the accumulator satisfy it. -/
theorem reserveItems_inr_qty {its : List CartItem} {ps ps' : List Product}
    {acc ois : List OrderItem} {tot t : Int}
    (h : reserveItems its ps acc tot = Sum.inr (ps', ois, t))
    (hacc : ∀ oi ∈ acc, 1 ≤ oi.quantity) (hits : ∀ it ∈ its, 1 ≤ it.quantity) :
    ∀ oi ∈ ois, 1 ≤ oi.quantity := by
  induction its generalizing ps acc tot with
  | nil =>
    rw [reserveItems] at h
    cases h
    exact hacc
  | cons it rest ih =>
    cases hq : findProductById ps it.productId with
    | none =>
      simp only [reserveItems, hq] at h
      exact Sum.noConfusion h
    | some q =>
      simp only [reserveItems, hq] at h
      by_cases havail : q.stock - q.reservedStock < it.quantity
      · rw [if_pos havail] at h
        exact Sum.noConfusion h
      · rw [if_neg havail] at h
        refine ih h ?_ fun it2 h2 => hits it2 (List.mem_cons_of_mem _ h2)
        intro oi hoi
        rcases List.mem_append.1 hoi with hoi | hoi
        · exact hacc oi hoi
        · rcases List.mem_singleton.1 hoi with rfl
          exact hits it (List.mem_cons_self _ _)

/-- Clearing a cart preserves the schema bound on cart lines. -/
theorem clearCartOfUser_wf {cs : List Cart} {uid : Nat}
    (h : ∀ c ∈ cs, ∀ it ∈ c.items, 1 ≤ it.quantity) :
    ∀ c ∈ clearCartOfUser cs uid, ∀ it ∈ c.items, 1 ≤ it.quantity := by
  intro c hc it hit
  rcases List.mem_map.1 hc with ⟨a, ha, rfl⟩
  by_cases hu : a.userId = uid
  · rw [if_pos hu] at hit
    simp at hit
  · rw [if_neg hu] at hit
    exact h a ha it hit

theorem dbWF_checkoutSeq {db : Db} (h : dbWF db) (uid : Nat) (now tmo : Int)
    (newOid : Nat) :
    dbWF (chkOutDb (checkoutWithoutTransaction db uid now tmo newOid)) := by
  obtain ⟨hinv, hcarts, horders⟩ := h
  cases hcart : findCartByUser db.carts uid with
  | none =>
    simp only [checkoutWithoutTransaction, hcart, chkOutDb]
    exact ⟨hinv, hcarts, horders⟩
  | some cart =>
    have hcwf : ∀ it ∈ cart.items, 1 ≤ it.quantity :=
      hcarts cart (findCartByUser_mem hcart)
    simp only [checkoutWithoutTransaction, hcart]
    by_cases hit : cart.items = []
    · rw [if_pos hit]
      simp only [chkOutDb]
      exact ⟨hinv, hcarts, horders⟩
    · rw [if_neg hit]
      cases hres : reserveItems cart.items db.products [] 0 with
      | inl ep =>
        obtain ⟨e, ps⟩ := ep
        simp only [chkOutDb]
        have hpinv : ∀ p ∈ ps, productInvariant p := by
          have hout := @reserveItems_out_inv cart.items db.products [] 0 hinv hcwf
          rw [hres] at hout
          simpa [reserveOut] using hout
        exact ⟨hpinv, hcarts, horders⟩
      | inr r =>
        obtain ⟨ps2, ois, tot⟩ := r
        simp only [chkOutDb]
        have hpinv : ∀ p ∈ ps2, productInvariant p := by
          have hout := @reserveItems_out_inv cart.items db.products [] 0 hinv hcwf
          rw [hres] at hout
          simpa [reserveOut] using hout
        have hqty : ∀ oi ∈ ois, 1 ≤ oi.quantity :=
          reserveItems_inr_qty hres (by simp) hcwf
        refine ⟨hpinv, hcarts, ?_⟩
        intro o ho it2 hit2
        rcases List.mem_append.1 ho with ho | ho
        · exact horders o ho it2 hit2
        · rcases List.mem_singleton.1 ho with rfl
          exact hqty it2 hit2

theorem dbWF_checkoutTx {db : Db} (h : dbWF db) (uid : Nat) (now tmo : Int)
    (newOid : Nat) :
    dbWF (chkOutDb (checkoutWithTransaction db uid now tmo newOid)) := by
  obtain ⟨hinv, hcarts, horders⟩ := h
  cases hcart : findCartByUser db.carts uid with
  | none =>
    simp only [checkoutWithTransaction, hcart, chkOutDb]
    exact ⟨hinv, hcarts, horders⟩
  | some cart =>
    have hcwf : ∀ it ∈ cart.items, 1 ≤ it.quantity :=
      hcarts cart (findCartByUser_mem hcart)
    simp only [checkoutWithTransaction, hcart]
    by_cases hit : cart.items = []
    · rw [if_pos hit]
      simp only [chkOutDb]
      exact ⟨hinv, hcarts, horders⟩
    · rw [if_neg hit]
      cases hres : reserveItems cart.items db.products [] 0 with
      | inl ep =>
        obtain ⟨e, ps⟩ := ep
        simp only [chkOutDb]
        exact ⟨hinv, hcarts, horders⟩
      | inr r =>
        obtain ⟨ps2, ois, tot⟩ := r
        simp only [chkOutDb]
        have hpinv : ∀ p ∈ ps2, productInvariant p := by
          have hout := @reserveItems_out_inv cart.items db.products [] 0 hinv hcwf
          rw [hres] at hout
          simpa [reserveOut] using hout
        have hqty : ∀ oi ∈ ois, 1 ≤ oi.quantity :=
          reserveItems_inr_qty hres (by simp) hcwf
        refine ⟨hpinv, hcarts, ?_⟩
        intro o ho it2 hit2
        rcases List.mem_append.1 ho with ho | ho
        · exact horders o ho it2 hit2
        · rcases List.mem_singleton.1 ho with rfl
          exact hqty it2 hit2

theorem dbWF_paymentSeq {db : Db} (h : dbWF db) (oid uid : Nat) (now : Int) :
    dbWF (payOutDb (processPaymentWithoutTransaction db oid uid now)) := by
  obtain ⟨hinv, hcarts, horders⟩ := h
  cases hord : findOrderById db.orders oid with
  | none =>
    simp only [processPaymentWithoutTransaction, hord, payOutDb]
    exact ⟨hinv, hcarts, horders⟩
  | some order =>
    have howf : ∀ it ∈ order.items, 1 ≤ it.quantity :=
      horders order (findOrderById_mem hord)
    simp only [processPaymentWithoutTransaction, hord]
    by_cases h1 : order.userId ≠ uid
    · rw [if_pos h1]
      simp only [payOutDb]
      exact ⟨hinv, hcarts, horders⟩
    · rw [if_neg h1]
      by_cases h2 : order.status ≠ OrderStatus.PENDING_PAYMENT
      · rw [if_pos h2]
        simp only [payOutDb]
        exact ⟨hinv, hcarts, horders⟩
      · rw [if_neg h2]
        by_cases h3 : order.paymentDeadline < now
        · rw [if_pos h3]
          simp only [payOutDb]
          exact ⟨hinv, hcarts, horders⟩
        · rw [if_neg h3]
          cases hc : commitItems order.items db.products with
          | inl ep =>
            obtain ⟨e, ps⟩ := ep
            simp only [payOutDb]
            have hpinv : ∀ p ∈ ps, productInvariant p := by
              have hout := @commitItems_out_inv order.items db.products hinv
              rw [hc] at hout
              simpa [commitOut] using hout
            exact ⟨hpinv, hcarts, horders⟩
          | inr ps2 =>
            simp only [payOutDb]
            have hpinv : ∀ p ∈ ps2, productInvariant p := by
              have hout := @commitItems_out_inv order.items db.products hinv
              rw [hc] at hout
              simpa [commitOut] using hout
            refine ⟨hpinv, clearCartOfUser_wf hcarts, ?_⟩
            intro o ho it2 hit2
            rcases mem_saveOrder ho with rfl | ho2
            · exact howf it2 hit2
            · exact horders o ho2 it2 hit2

theorem dbWF_paymentTx {db : Db} (h : dbWF db) (oid uid : Nat) (now : Int) :
    dbWF (payOutDb (processPaymentWithTransaction db oid uid now)) := by
  obtain ⟨hinv, hcarts, horders⟩ := h
  cases hord : findOrderById db.orders oid with
  | none =>
    simp only [processPaymentWithTransaction, hord, payOutDb]
    exact ⟨hinv, hcarts, horders⟩
  | some order =>
    have howf : ∀ it ∈ order.items, 1 ≤ it.quantity :=
      horders order (findOrderById_mem hord)
    simp only [processPaymentWithTransaction, hord]
    by_cases h1 : order.userId ≠ uid
    · rw [if_pos h1]
      simp only [payOutDb]
      exact ⟨hinv, hcarts, horders⟩
    · rw [if_neg h1]
      by_cases h2 : order.status ≠ OrderStatus.PENDING_PAYMENT
      · rw [if_pos h2]
        simp only [payOutDb]
        exact ⟨hinv, hcarts, horders⟩
      · rw [if_neg h2]
        by_cases h3 : order.paymentDeadline < now
        · rw [if_pos h3]
          simp only [payOutDb]
          exact ⟨hinv, hcarts, horders⟩
        · rw [if_neg h3]
          cases hc : commitItems order.items db.products with
          | inl ep =>
            obtain ⟨e, ps⟩ := ep
            simp only [payOutDb]
            exact ⟨hinv, hcarts, horders⟩
          | inr ps2 =>
            simp only [payOutDb]
            have hpinv : ∀ p ∈ ps2, productInvariant p := by
              have hout := @commitItems_out_inv order.items db.products hinv
              rw [hc] at hout
              simpa [commitOut] using hout
            refine ⟨hpinv, clearCartOfUser_wf hcarts, ?_⟩
            intro o ho it2 hit2
            rcases mem_saveOrder ho with rfl | ho2
            · exact howf it2 hit2
            · exact horders o ho2 it2 hit2

theorem dbWF_cancelSeq {db : Db} (h : dbWF db) (oid : Nat) :
    dbWF ((cancelOrderWithoutTransaction db oid).1) := by
  obtain ⟨hinv, hcarts, horders⟩ := h
  cases hord : findOrderById db.orders oid with
  | none =>
    simp only [cancelOrderWithoutTransaction, hord]
    exact ⟨hinv, hcarts, horders⟩
  | some order =>
    have howf : ∀ it ∈ order.items, 1 ≤ it.quantity :=
      horders order (findOrderById_mem hord)
    simp only [cancelOrderWithoutTransaction, hord]
    by_cases hst : order.status ≠ OrderStatus.PENDING_PAYMENT
    · rw [if_pos hst]
      exact ⟨hinv, hcarts, horders⟩
    · rw [if_neg hst]
      refine ⟨releaseItems_out_inv hinv howf, hcarts, ?_⟩
      intro o ho it2 hit2
      rcases mem_saveOrder ho with rfl | ho2
      · exact howf it2 hit2
      · exact horders o ho2 it2 hit2

theorem dbWF_cancelTx {db : Db} (h : dbWF db) (oid : Nat) :
    dbWF ((cancelOrderWithTransaction db oid).1) := by
  obtain ⟨hinv, hcarts, horders⟩ := h
  cases hord : findOrderById db.orders oid with
  | none =>
    simp only [cancelOrderWithTransaction, hord]
    exact ⟨hinv, hcarts, horders⟩
  | some order =>
    have howf : ∀ it ∈ order.items, 1 ≤ it.quantity :=
      horders order (findOrderById_mem hord)
    simp only [cancelOrderWithTransaction, hord]
    by_cases hst : order.status ≠ OrderStatus.PENDING_PAYMENT
    · rw [if_pos hst]
      exact ⟨hinv, hcarts, horders⟩
    · rw [if_neg hst]
      refine ⟨releaseItems_out_inv hinv howf, hcarts, ?_⟩
      intro o ho it2 hit2
      rcases mem_saveOrder ho with rfl | ho2
      · exact howf it2 hit2
      · exact horders o ho2 it2 hit2

theorem dbWF_adminStatus {db : Db} (h : dbWF db) (oid : Nat) (tgt : OrderStatus) :
    dbWF (chkOutDb (updateOrderStatus db oid tgt)) := by
  obtain ⟨hinv, hcarts, horders⟩ := h
  cases hord : findOrderById db.orders oid with
  | none =>
    simp only [updateOrderStatus, hord, chkOutDb]
    exact ⟨hinv, hcarts, horders⟩
  | some order =>
    have howf : ∀ it ∈ order.items, 1 ≤ it.quantity :=
      horders order (findOrderById_mem hord)
    simp only [updateOrderStatus, hord]
    by_cases hmem : tgt ∈ validTransitions order.status
    · rw [if_pos hmem]
      simp only [chkOutDb]
      refine ⟨hinv, hcarts, ?_⟩
      intro o ho it2 hit2
      rcases mem_saveOrder ho with rfl | ho2
      · exact howf it2 hit2
      · exact horders o ho2 it2 hit2
    · rw [if_neg hmem]
      simp only [chkOutDb]
      exact ⟨hinv, hcarts, horders⟩

theorem applyOp_wf {db : Db} (h : dbWF db) (op : EngineOp) : dbWF (applyOp db op) := by
  cases op with
  | checkoutTx uid now tmo newOid => exact dbWF_checkoutTx h uid now tmo newOid
  | checkoutSeq uid now tmo newOid => exact dbWF_checkoutSeq h uid now tmo newOid
  | paymentTx oid uid now => exact dbWF_paymentTx h oid uid now
  | paymentSeq oid uid now => exact dbWF_paymentSeq h oid uid now
  | cancelTx oid => exact dbWF_cancelTx h oid
  | cancelSeq oid => exact dbWF_cancelSeq h oid
  | adminStatus oid tgt => exact dbWF_adminStatus h oid tgt

theorem runOps_wf {db : Db} (h : dbWF db) (ops : List EngineOp) :
    dbWF (runOps db ops) := by
  induction ops generalizing db with
  | nil => exact h
  | cons op ops ih => exact ih (applyOp_wf h op)

/-- **C4.** Every sequence of engine operations — checkout (reserve),
payment (commit), cancellation (release), in the transactional and the
fallback variant, and admin status updates — applied to a well-formed
store keeps `0 ≤ reservedStock ≤ stock` for every product after every
operation: a reserve only increments `reservedStock` after checking
`stock - reservedStock ≥ quantity`, a commit rejects any decrement that
would drive a counter negative before saving it, and a release clamps
`reservedStock` at zero. -/
theorem engine_preserves_stock_invariant (db : Db) (h : dbWF db)
    (ops : List EngineOp) : stockInvariant (runOps db ops) :=
  (runOps_wf h ops).1

theorem engine_preserves_stock_invariant_holds :
    dbWF dbPaid ∧ stockInvariant (runOps dbPaid opsRun) :=
  ⟨by decide, engine_preserves_stock_invariant dbPaid (by decide) opsRun⟩

end ECom
